import Mathlib

/-!
Shallow embedding of `scripts/stitch_clips.py` (the segment conformance,
subtitle and stitching tool) together with proofs about the claims of the
specification. Durations and timestamps are modelled as rationals; the
code only copies, divides and multiplies them, and every claim is about
the algebraic structure of those operations.
-/

namespace Stitch

/-- Python whitespace test, restricted to the ASCII whitespace characters
(space, tab, newline, carriage return, vertical tab, form feed): used by
`str.strip`, `str.split()` and the regex class `\s`. -/
def pyIsSpace (c : Char) : Bool :=
  c == ' ' || c == '\t' || c == '\n' || c == '\r' ||
    c == Char.ofNat 11 || c == Char.ofNat 12

/-- Scan for the first `]`, failing on a newline or end of input: the
search a non-greedy `\[.*?\]` match performs after an opening bracket
(`.` does not match a newline).  Returns the characters after the `]`. -/
def takeToClose : List Char → Option (List Char)
  | [] => none
  | c :: cs => if c == ']' then some cs else if c == '\n' then none else takeToClose cs

/-- `re.sub(r'\[.*?\]', '', s)`: delete every leftmost-first non-greedy
bracketed run; an opening bracket with no reachable `]` is kept literally.
The fuel argument only pays for termination; `removeBrackets` supplies the
input's length, which always suffices because each step consumes at least
one character. -/
def removeBracketsAux : Nat → List Char → List Char
  | 0, l => l
  | _, [] => []
  | fuel + 1, c :: cs =>
    if c == '[' then
      match takeToClose cs with
      | some rest => removeBracketsAux fuel rest
      | none => c :: removeBracketsAux fuel cs
    else c :: removeBracketsAux fuel cs

def removeBrackets (l : List Char) : List Char :=
  removeBracketsAux l.length l

/-- `str.replace('--', ' ')`: left-to-right, non-overlapping. -/
def replaceDashDash : List Char → List Char
  | '-' :: '-' :: cs => ' ' :: replaceDashDash cs
  | c :: cs => c :: replaceDashDash cs
  | [] => []

/-- `str.replace('-', ' ')`. -/
def replaceDash (l : List Char) : List Char :=
  l.map (fun c => if c == '-' then ' ' else c)

/-- `re.sub(r'\s+', ' ', s)`: collapse every whitespace run to one
space.  A whitespace character followed by more whitespace is dropped;
the last character of each run becomes the single space. -/
def collapseWs : List Char → List Char
  | [] => []
  | [c] => if pyIsSpace c then [' '] else [c]
  | c :: d :: cs =>
    if pyIsSpace c && pyIsSpace d then collapseWs (d :: cs)
    else (if pyIsSpace c then ' ' else c) :: collapseWs (d :: cs)

/-- `str.strip()`: drop leading and trailing whitespace. -/
def pyStrip (l : List Char) : List Char :=
  ((l.dropWhile pyIsSpace).reverse.dropWhile pyIsSpace).reverse

/-- `str.split()` with no separator: maximal runs of non-whitespace,
empty pieces discarded.  The accumulator holds the reversed current run. -/
def pySplitAux : List Char → List Char → List (List Char)
  | [], acc => if acc = [] then [] else [acc.reverse]
  | c :: cs, acc =>
    if pyIsSpace c then
      if acc = [] then pySplitAux cs [] else acc.reverse :: pySplitAux cs []
    else pySplitAux cs (c :: acc)

def pySplit (l : List Char) : List (List Char) :=
  pySplitAux l []

/-- The cleanup applied to a segment's text before subtitling
(`stitch_clips.py` lines 70-72): strip `[...]` directives, turn `--` and
`-` into spaces, collapse whitespace and trim the ends. -/
def cleanText (t : List Char) : List Char :=
  pyStrip (collapseWs (replaceDash (replaceDashDash (removeBrackets t))))

/-- `clean_text.split()` — the word list the even-distribution fallback uses. -/
def cleanWords (t : List Char) : List (List Char) :=
  pySplit (cleanText t)

/-! ## Word reconstruction from character alignment (lines 107-148) -/

/-- A reconstructed word with its display text and time window. -/
structure WordSpan where
  text : List Char
  start : ℚ
  stop : ℚ
deriving Repr, DecidableEq

/-- `current_word.replace('--', '')`. -/
def stripDashDash : List Char → List Char
  | '-' :: '-' :: cs => stripDashDash cs
  | c :: cs => c :: stripDashDash cs
  | [] => []

/-- `current_word.replace('--', '').replace('-', '')` — the display text. -/
def displayWord (w : List Char) : List Char :=
  (stripDashDash w).filter (fun c => c != '-')

/-- The loop state of the character-to-word reconstruction: the bracket
flag, the word being accumulated, its pending start/end times (`-1` is the
code's "unset" sentinel) and the words emitted so far. -/
structure PState where
  inBracket : Bool
  currentWord : List Char
  wordStart : ℚ
  wordStop : ℚ
  out : List WordSpan
deriving Repr, DecidableEq

/-- Emit the pending word if its display text is non-blank (the code's
`if display_word.strip(): words_with_timing.append(...)`). -/
def flushWord (st : PState) : List WordSpan :=
  if pyStrip (displayWord st.currentWord) ≠ [] then
    st.out ++ [⟨displayWord st.currentWord, st.wordStart, st.wordStop⟩]
  else st.out

/-- One iteration of the reconstruction loop over `(char, start, end)`. -/
def pstep (st : PState) (t : Char × ℚ × ℚ) : PState :=
  if t.1 == '[' then { st with inBracket := true }
  else if t.1 == ']' then { st with inBracket := false }
  else if st.inBracket then st
  else if t.1 == ' ' then
    if st.currentWord ≠ [] then
      { inBracket := st.inBracket, currentWord := [], wordStart := -1, wordStop := -1,
        out := flushWord st }
    else st
  else
    { st with
      wordStart := if st.wordStart = -1 then t.2.1 else st.wordStart,
      wordStop := t.2.2,
      currentWord := st.currentWord ++ [t.1] }

/-- The initial loop state (`in_bracket = False`, empty word, `-1` times). -/
def pinit : PState := ⟨false, [], -1, -1, []⟩

/-- After the loop: flush the final pending word, if any. -/
def parseFinish (fin : PState) : List WordSpan :=
  if fin.currentWord ≠ [] then flushWord fin else fin.out

/-- Reconstruct words from aligned characters: fold the loop body over the
character/time triples, then flush the final pending word. -/
def parseAligned (l : List (Char × ℚ × ℚ)) : List WordSpan :=
  parseFinish (l.foldl pstep pinit)

/-- Alignment block: per-character timing metadata, equal lengths. -/
structure AlignmentData where
  characters : List Char
  startTimes : List ℚ
  endTimes : List ℚ

/-- The `(char, start, end)` triples the loop enumerates. -/
def alignTriples (a : AlignmentData) : List (Char × ℚ × ℚ) :=
  a.characters.zip (a.startTimes.zip a.endTimes)

/-- Word reconstruction on an alignment block. -/
def parseAlignment (a : AlignmentData) : List WordSpan :=
  parseAligned (alignTriples a)

/-! ## Even-distribution fallback (lines 172-186) -/

/-- A subtitle cue: display text and its enable window. -/
structure Cue where
  text : List Char
  start : ℚ
  stop : ℚ
deriving Repr, DecidableEq

/-- The fallback subtitle cues: split the cleaned text into words, give
word `i` the window `[i*d/n, (i+1)*d/n]`, and force the last word's end to
the audio duration; no words, no cues. -/
def fallbackCues (text : List Char) (audioDuration : ℚ) : List Cue :=
  let words := cleanWords text
  if words = [] then []
  else
    let wd := audioDuration / (words.length : ℚ)
    words.mapIdx (fun i w =>
      { text := w, start := (i : ℚ) * wd,
        stop := if i = words.length - 1 then audioDuration else ((i : ℚ) + 1) * wd })

/-! ## The per-segment render pipeline (`process_segment`, lines 21-227) -/

/-- One video filter-graph operation, as the code chains them on the video
stream.  `loopInput` is the `stream_loop=-1` input option (infinite forward
loop), `trim`/`setptsReset` are `.trim(duration=d).setpts('PTS-STARTPTS')`,
then the standardisation filters, then one `drawtext` per subtitle word.
`reversePlayback` and `stretchPts` are never produced by the code: they are
the vocabulary needed to state the specification's ping-pong and slow-down
conformance strategies. -/
inductive VOp
  | loopInput
  | trim (d : ℚ)
  | setptsReset
  | scale (w h : ℕ)
  | pad (w h : ℕ)
  | setsar
  | fps (n : ℕ)
  | pixFormat
  | drawtext (text : List Char) (start stop : ℚ)
  | reversePlayback
  | stretchPts (factor : ℚ)
deriving Repr, DecidableEq

/-- One audio filter operation.  `atempo` is the bounded tempo stage of the
specification's TempoChainer; the code chains no filter at all between
`ffmpeg.input(audio_path)` and `ffmpeg.output`, so its plans never contain
one. -/
inductive AOp
  | atempo (factor : ℚ)
deriving Repr, DecidableEq

/-- The declarative content of one `ffmpeg.output(...).run()` call for a
segment: the ordered video filter chain, the ordered audio filter chain,
the `t=` output-duration constraint and the destination path. -/
structure RenderPlan where
  videoOps : List VOp
  audioOps : List AOp
  outputDuration : ℚ
  outputPath : String
deriving Repr, DecidableEq

/-- One entry of the clips JSON: `video`/`audio` paths (absent key modelled
as `none`), display text, optional alignment block. -/
structure Segment where
  video : Option String
  audio : Option String
  text : List Char
  alignment : Option AlignmentData

/-- The external world one `process_segment` call sees: whether the two
source files exist, what probing the audio returns, and whether the
external ffmpeg render run succeeds. -/
structure SegEnv where
  videoExists : Bool
  audioExists : Bool
  probe : Except String ℚ
  renderRun : Except String Unit

/-- `get_audio_duration` (lines 9-19): report a probe failure on stderr and
re-raise it unchanged; on success return the probed duration.  No default
duration is ever substituted. -/
def get_audio_duration (path : String) (probe : Except String ℚ) :
    List String × Except String ℚ :=
  match probe with
  | .ok d => ([], .ok d)
  | .error e => (["Error probing " ++ path ++ ": " ++ e], .error e)

/-- `word.replace("'", "\\'").replace(":", "\\:")`. -/
def safeWord (w : List Char) : List Char :=
  w.flatMap (fun c =>
    if c = Char.ofNat 39 then ['\\', Char.ofNat 39]
    else if c = ':' then ['\\', ':'] else [c])

/-- The drawtext chain of one segment (lines 66-204): nothing for empty
text; with an alignment block, one drawtext per reconstructed word; else
one per even-distribution fallback cue.  Font styling is not modelled: it
never affects timing, ordering or text. -/
def subtitleOps (text : List Char) (alignment : Option AlignmentData) (d : ℚ) :
    List VOp :=
  if text = [] then []
  else
    match alignment with
    | some al => (parseAlignment al).map (fun w => .drawtext (safeWord w.text) w.start w.stop)
    | none => (fallbackCues text d).map (fun c => .drawtext (safeWord c.text) c.start c.stop)

/-- The full video filter chain the code builds for a segment whose audio
probed to duration `d` (lines 48-204): loop the video input forward
unboundedly, trim to `d`, reset timestamps to zero, standardise, then the
subtitle drawtexts.  The native video duration is never probed and never
read. -/
def codeVideoOps (d : ℚ) (text : List Char) (alignment : Option AlignmentData)
    (w h : ℕ) : List VOp :=
  [VOp.loopInput, .trim d, .setptsReset, .scale w h, .pad w h, .setsar, .fps 30, .pixFormat]
    ++ subtitleOps text alignment d

/-- The audio chain of a segment: the narration stream is passed to the
output untouched (no filter is applied to `in_audio` anywhere). -/
def codeAudioOps : List AOp := []

/-- `process_segment` (lines 21-227): missing-file checks, audio probe
(master duration), plan construction, external run.  Returns the executed
plan, or the first error raised. -/
def process_segment (seg : Segment) (env : SegEnv) (outputPath : String)
    (w h : ℕ) : Except String RenderPlan :=
  match seg.video with
  | none => .error "Video file not found: None"
  | some vp =>
    if ¬ env.videoExists then .error ("Video file not found: " ++ vp)
    else match seg.audio with
    | none => .error "Audio file not found: None"
    | some ap =>
      if ¬ env.audioExists then .error ("Audio file not found: " ++ ap)
      else match (get_audio_duration ap env.probe).2 with
      | .error e => .error e
      | .ok d =>
        match env.renderRun with
        | .error e => .error e
        | .ok _ => .ok
            { videoOps := codeVideoOps d seg.text seg.alignment w h
              audioOps := codeAudioOps
              outputDuration := d
              outputPath := outputPath }

/-! ## The main flow (lines 229-376) -/

/-- `temp_seg_{session_id}_{i}.mp4` inside the working directory. -/
def tempPath (workDir session : String) (i : ℕ) : String :=
  workDir ++ "/temp_seg_" ++ session ++ "_" ++ toString i ++ ".mp4"

/-- The sequential per-segment loop (lines 308-311): process segment `i`
to its indexed temp path, stop at the first failure, and collect the temp
paths in input order. -/
def runSegments (env : ℕ → SegEnv) (workDir session : String) (w h : ℕ) :
    List Segment → ℕ → Except String (List String)
  | [], _ => .ok []
  | s :: rest, i =>
    match process_segment s (env i) (tempPath workDir session i) w h with
    | .error e => .error e
    | .ok _ =>
      match runSegments env workDir session w h rest (i + 1) with
      | .error e => .error e
      | .ok tfs => .ok (tempPath workDir session i :: tfs)

/-- The external world `main` sees: the clips-JSON load outcome, the
per-segment environment, and the final concatenation/mix run outcome. -/
structure MainEnv where
  clipsLoad : Except String (List Segment)
  segEnv : ℕ → SegEnv
  concatRun : Except String Unit

/-- The observable outcome of a `main` run: exit status, what was printed
on stdout, the failure reports printed on stderr (purely informational
progress logging, which also goes to stderr, is not tracked), and the
ordered temp-segment list handed to the concat demuxer. -/
structure MainResult where
  exitCode : ℕ
  stdoutLines : List String
  stderrLines : List String
  concatEntries : List String
deriving Repr, DecidableEq

/-- `main` (lines 267-376): load the clips JSON (fatal on error), reject an
empty segment list, process every segment in input order, write the concat
list in the same order, run the final concatenation, and on success print
exactly the output path on stdout; every failure prints a cause on stderr
and exits with status 1. -/
def mainRun (env : MainEnv) (outputPath workDir session : String)
    (w h : ℕ) : MainResult :=
  match env.clipsLoad with
  | .error e => ⟨1, [], ["Error loading clips JSON: " ++ e], []⟩
  | .ok segs =>
    if segs.isEmpty then ⟨1, [], ["No segments provided."], []⟩
    else
      match runSegments env.segEnv workDir session w h segs 0 with
      | .error e => ⟨1, [], ["Process failed: " ++ e], []⟩
      | .ok tfs =>
        match env.concatRun with
        | .error e => ⟨1, [], ["Process failed: " ++ e], tfs⟩
        | .ok _ => ⟨0, [outputPath], [], tfs⟩

/-! ## Specification-side conformance predicates (refinement vocabulary) -/

/-- Follows the specification's words: a ping-pong conformance plan plays
"forward playback followed by a reversed playback", so its operation chain
contains a reversed-playback operation. -/
def specIsPingPong (ops : List VOp) : Prop :=
  VOp.reversePlayback ∈ ops

/-- Follows the specification's words: a slow-down conformance plan
stretches "every source timestamp by the ratio factor", so its operation
chain contains a timestamp stretch by that ratio. -/
def specIsSlowDown (ops : List VOp) (ratio : ℚ) : Prop :=
  VOp.stretchPts ratio ∈ ops

/-- The tempo factors of a plan's audio chain, in order. -/
def tempoFactors (ops : List AOp) : List ℚ :=
  ops.map (fun a => match a with | .atempo f => f)

example : cleanWords "  [sigh] go now  ".toList = ["go".toList, "now".toList] := by decide

/-! ## Helper lemmas -/

/-- A successful `process_segment` run probed some duration `d` and built
exactly the loop-trim-reset plan for it, with an untouched audio chain. -/
theorem process_segment_ok_elim {seg : Segment} {env : SegEnv} {op : String}
    {w h : ℕ} {plan : RenderPlan}
    (hok : process_segment seg env op w h = .ok plan) :
    ∃ d, env.probe = .ok d ∧
      plan = { videoOps := codeVideoOps d seg.text seg.alignment w h,
               audioOps := codeAudioOps, outputDuration := d, outputPath := op } := by
  unfold process_segment at hok
  rcases hv : seg.video with _ | vp <;> rw [hv] at hok
  · simp at hok
  · rcases hve : env.videoExists <;> rw [hve] at hok
    · simp at hok
    · rcases ha : seg.audio with _ | ap <;> rw [ha] at hok
      · simp at hok
      · rcases hae : env.audioExists <;> rw [hae] at hok
        · simp at hok
        · rcases hp : env.probe with e | d <;>
            simp [get_audio_duration, hp] at hok
          rcases hr : env.renderRun with e | u <;> rw [hr] at hok
          · simp at hok
          · refine ⟨d, rfl, ?_⟩
            simp at hok
            exact hok.symm

/-- Every operation in a subtitle chain is a `drawtext`. -/
theorem subtitleOps_all_drawtext (text : List Char) (al : Option AlignmentData)
    (d : ℚ) : ∀ op ∈ subtitleOps text al d, ∃ t s e, op = VOp.drawtext t s e := by
  intro op hop
  unfold subtitleOps at hop
  split at hop
  · simp at hop
  · rcases al with _ | a <;> simp at hop
    · rcases hop with ⟨c, -, rfl⟩
      exact ⟨_, _, _, rfl⟩
    · rcases hop with ⟨ws, -, rfl⟩
      exact ⟨_, _, _, rfl⟩

/-- The code's video chain never contains a reversed playback or a
timestamp stretch: those strategies are simply not implemented. -/
theorem codeVideoOps_no_conformance_branch (d : ℚ) (text : List Char)
    (al : Option AlignmentData) (w h : ℕ) :
    ¬ specIsPingPong (codeVideoOps d text al w h) ∧
    ∀ r, ¬ specIsSlowDown (codeVideoOps d text al w h) r := by
  constructor
  · intro hmem
    unfold specIsPingPong codeVideoOps at hmem
    simp at hmem
    obtain ⟨t, s, e, h⟩ := subtitleOps_all_drawtext text al d _ hmem
    exact VOp.noConfusion h
  · intro r hmem
    unfold specIsSlowDown codeVideoOps at hmem
    simp at hmem
    obtain ⟨t, s, e, h⟩ := subtitleOps_all_drawtext text al d _ hmem
    exact VOp.noConfusion h

/-! ## Claims C1 and C2: the conformance and tempo branches -/

/-- C1 counterexample: for the claim's own example (targetDuration = 5.0,
the audio-probed master duration; the native video duration 2.0 is never
even probed or read by the code), the built plan is the fixed
loop-trim-reset chain and is not a ping-pong plan (it contains no reversed
playback), nor a slow-down plan for the claimed ratio 5/2. -/
theorem C1_pingpong_refuted :
    process_segment ⟨some "clip.mp4", some "voice.mp3", [], none⟩
        ⟨true, true, .ok 5, .ok ()⟩ "out.mp4" 720 1280 =
      .ok { videoOps := [VOp.loopInput, .trim 5, .setptsReset, .scale 720 1280,
                         .pad 720 1280, .setsar, .fps 30, .pixFormat],
            audioOps := [], outputDuration := 5, outputPath := "out.mp4" } ∧
    ¬ specIsPingPong [VOp.loopInput, .trim 5, .setptsReset, .scale 720 1280,
                      .pad 720 1280, .setsar, .fps 30, .pixFormat] ∧
    ¬ specIsSlowDown [VOp.loopInput, .trim 5, .setptsReset, .scale 720 1280,
                      .pad 720 1280, .setsar, .fps 30, .pixFormat] (5 / 2) := by
  refine ⟨rfl, ?_, ?_⟩ <;> intro hmem <;>
    simp [specIsPingPong, specIsSlowDown] at hmem

/-- C1 (amended): the code has a single conformance strategy for every
native/target duration combination: loop the source forward unboundedly,
trim the loop to the master (audio) duration, and reset the timeline to
zero; it never selects a slow-down and never selects a ping-pong loop. -/
theorem C1_loop_trim_plan (d : ℚ) (text : List Char) (al : Option AlignmentData)
    (w h : ℕ) :
    codeVideoOps d text al w h =
      VOp.loopInput :: VOp.trim d :: VOp.setptsReset :: VOp.scale w h ::
        VOp.pad w h :: VOp.setsar :: VOp.fps 30 :: VOp.pixFormat ::
          subtitleOps text al d ∧
    ¬ specIsPingPong (codeVideoOps d text al w h) ∧
    ∀ r, ¬ specIsSlowDown (codeVideoOps d text al w h) r :=
  ⟨rfl, codeVideoOps_no_conformance_branch d text al w h⟩

/-- C2 counterexample: for the claim's own example (inputAudioDuration = 9,
targetDuration = 2, demanding non-empty factors [2.0, 2.0, 1.125] with
product 4.5) the code's audio chain is empty, so there are no factors and
their product is the empty product 1 ≠ 9/2.  The code has no targetDuration
distinct from the audio duration at all. -/
theorem C2_factors_refuted :
    process_segment ⟨some "clip.mp4", some "voice.mp3", [], none⟩
        ⟨true, true, .ok 9, .ok ()⟩ "out.mp4" 720 1280 =
      .ok { videoOps := codeVideoOps 9 [] none 720 1280, audioOps := [],
            outputDuration := 9, outputPath := "out.mp4" } ∧
    tempoFactors codeAudioOps = [] ∧
    (tempoFactors codeAudioOps).prod = 1 ∧ (9 : ℚ) / 2 ≠ 1 := by
  refine ⟨rfl, rfl, rfl, by norm_num⟩

/-- C2 (amended): the code never adjusts audio tempo.  Every successfully
rendered segment has an empty audio filter chain — no tempo factors, factor
product 1 — and its output is instead constrained to the probed audio
duration itself, which is the master target duration. -/
theorem C2_no_tempo_stages (seg : Segment) (env : SegEnv) (op : String)
    (w h : ℕ) (plan : RenderPlan)
    (hok : process_segment seg env op w h = .ok plan) :
    plan.audioOps = [] ∧ tempoFactors plan.audioOps = [] ∧
    (tempoFactors plan.audioOps).prod = 1 ∧
    env.probe = .ok plan.outputDuration := by
  obtain ⟨d, hp, rfl⟩ := process_segment_ok_elim hok
  exact ⟨rfl, rfl, rfl, hp⟩

theorem C2_no_tempo_stages_witness :
    process_segment ⟨some "clip.mp4", some "voice.mp3", [], none⟩
        ⟨true, true, .ok 9, .ok ()⟩ "out.mp4" 720 1280 =
      .ok { videoOps := codeVideoOps 9 [] none 720 1280, audioOps := [],
            outputDuration := 9, outputPath := "out.mp4" } ∧
    ({ videoOps := codeVideoOps 9 [] none 720 1280, audioOps := [],
       outputDuration := 9, outputPath := "out.mp4" } : RenderPlan).audioOps = [] :=
  ⟨rfl, (C2_no_tempo_stages ⟨some "clip.mp4", some "voice.mp3", [], none⟩
    ⟨true, true, .ok 9, .ok ()⟩ "out.mp4" 720 1280
    { videoOps := codeVideoOps 9 [] none 720 1280, audioOps := [],
      outputDuration := 9, outputPath := "out.mp4" } rfl).1⟩

/-! ## Claim C3: output duration always equals the master duration -/

/-- C3: every successfully rendered segment is trimmed to exactly the
master (audio) duration with its timeline reset to zero immediately after
the trim, and the encoded output is constrained to that same duration. -/
theorem C3_output_duration_matches_master (seg : Segment) (env : SegEnv)
    (op : String) (w h : ℕ) (plan : RenderPlan) (d : ℚ)
    (hok : process_segment seg env op w h = .ok plan)
    (hd : env.probe = .ok d) :
    plan.outputDuration = d ∧
    plan.videoOps = VOp.loopInput :: VOp.trim d :: VOp.setptsReset ::
      (VOp.scale w h :: VOp.pad w h :: VOp.setsar :: VOp.fps 30 ::
        VOp.pixFormat :: subtitleOps seg.text seg.alignment d) := by
  obtain ⟨d2, hp, rfl⟩ := process_segment_ok_elim hok
  rw [hd] at hp
  cases hp
  exact ⟨rfl, rfl⟩

theorem C3_output_duration_matches_master_witness :
    process_segment ⟨some "clip.mp4", some "voice.mp3", [], none⟩
        ⟨true, true, .ok 5, .ok ()⟩ "out.mp4" 720 1280 =
      .ok { videoOps := codeVideoOps 5 [] none 720 1280, audioOps := [],
            outputDuration := 5, outputPath := "out.mp4" } ∧
    ({ videoOps := codeVideoOps 5 [] none 720 1280, audioOps := [],
       outputDuration := 5, outputPath := "out.mp4" } : RenderPlan).outputDuration = 5 :=
  ⟨rfl, (C3_output_duration_matches_master ⟨some "clip.mp4", some "voice.mp3", [], none⟩
    ⟨true, true, .ok 5, .ok ()⟩ "out.mp4" 720 1280
    { videoOps := codeVideoOps 5 [] none 720 1280, audioOps := [],
      outputDuration := 5, outputPath := "out.mp4" } 5 rfl rfl).1⟩

/-! ## Claim C5: probe failures -/

/-- C5 counterexample: a failed audio probe is not recovered as duration
0/unknown — `get_audio_duration` re-raises it after reporting, and the
segment's processing stops with that error instead of continuing. -/
theorem C5_probe_recovery_refuted :
    (get_audio_duration "voice.mp3" (.error "probe failed")).2 = .error "probe failed" ∧
    (get_audio_duration "voice.mp3" (.error "probe failed")).2 ≠ .ok 0 ∧
    process_segment ⟨some "clip.mp4", some "voice.mp3", [], none⟩
        ⟨true, true, .error "probe failed", .ok ()⟩ "out.mp4" 720 1280 =
      .error "probe failed" := by
  refine ⟨rfl, by simp [get_audio_duration], rfl⟩

/-- C5 (amended): a probe failure is reported on stderr in human-readable
form and then propagated unchanged; a segment whose source files exist but
whose audio probe fails is aborted with that error, not processed with a
degraded duration. -/
theorem C5_probe_failure_propagates (path e vp ap : String) (seg : Segment)
    (env : SegEnv) (op : String) (w h : ℕ)
    (hv : seg.video = some vp) (hve : env.videoExists = true)
    (ha : seg.audio = some ap) (hae : env.audioExists = true)
    (hp : env.probe = .error e) :
    get_audio_duration path (.error e) =
      (["Error probing " ++ path ++ ": " ++ e], .error e) ∧
    process_segment seg env op w h = .error e := by
  refine ⟨rfl, ?_⟩
  unfold process_segment
  rw [hv, hve, ha, hae]
  simp [get_audio_duration, hp]

theorem C5_probe_failure_propagates_witness :
    (⟨some "clip.mp4", some "voice.mp3", [], none⟩ : Segment).video = some "clip.mp4" ∧
    process_segment ⟨some "clip.mp4", some "voice.mp3", [], none⟩
        ⟨true, true, .error "boom", .ok ()⟩ "out.mp4" 720 1280 = .error "boom" :=
  ⟨rfl, (C5_probe_failure_propagates "voice.mp3" "boom" "clip.mp4" "voice.mp3"
    ⟨some "clip.mp4", some "voice.mp3", [], none⟩
    ⟨true, true, .error "boom", .ok ()⟩ "out.mp4" 720 1280
    rfl rfl rfl rfl rfl).2⟩

/-! ## Claim C4: ordering of the assembled segments -/

/-- The sequential loop yields, in input order, exactly the indexed temp
path of each input position, and position `k` was rendered to its own
indexed path. -/
theorem runSegments_ok_shape (env : ℕ → SegEnv) (workDir session : String)
    (w h : ℕ) :
    ∀ (segs : List Segment) (i0 : ℕ) (tfs : List String),
      runSegments env workDir session w h segs i0 = .ok tfs →
      tfs = (List.range segs.length).map (fun k => tempPath workDir session (i0 + k)) ∧
      ∀ k (hk : k < segs.length), ∃ plan,
        process_segment (segs.get ⟨k, hk⟩) (env (i0 + k))
          (tempPath workDir session (i0 + k)) w h = .ok plan ∧
        plan.outputPath = tempPath workDir session (i0 + k) := by
  intro segs
  induction segs with
  | nil =>
    intro i0 tfs hok
    simp [runSegments] at hok
    refine ⟨by simp [← hok], ?_⟩
    intro k hk
    exact absurd hk (Nat.not_lt_zero k)
  | cons s rest ih =>
    intro i0 tfs hok
    unfold runSegments at hok
    rcases hs : process_segment s (env i0) (tempPath workDir session i0) w h with e | plan <;>
      rw [hs] at hok
    · simp at hok
    · rcases hr : runSegments env workDir session w h rest (i0 + 1) with e | tfs2 <;>
        rw [hr] at hok
      · simp at hok
      · obtain ⟨htfs2, hrest⟩ := ih (i0 + 1) tfs2 hr
        simp at hok
        constructor
        · rw [← hok, htfs2]
          simp only [List.length_cons]
          rw [List.range_succ_eq_map, List.map_cons, List.map_map]
          congr 1
          apply List.map_congr_left
          intro a ha
          show tempPath workDir session (i0 + 1 + a) =
            tempPath workDir session (i0 + (a + 1))
          congr 1
          omega
        · intro k hk
          cases k with
          | zero =>
            refine ⟨plan, ?_, ?_⟩
            · simpa using hs
            · obtain ⟨d, hp, rfl⟩ := process_segment_ok_elim hs
              rfl
          | succ k2 =>
            have hk2 : k2 < rest.length := Nat.lt_of_succ_lt_succ hk
            obtain ⟨plan2, hok2, hpath2⟩ := hrest k2 hk2
            refine ⟨plan2, ?_, ?_⟩
            · have : i0 + (k2 + 1) = i0 + 1 + k2 := by omega
              rw [this]
              simpa using hok2
            · have : i0 + (k2 + 1) = i0 + 1 + k2 := by omega
              rw [this]
              exact hpath2

/-- C4: whenever a run succeeds, the concatenation list is exactly the
input-order sequence of indexed temp paths, and the segment at input
position `k` was rendered to the temp path at position `k` — the output
order always equals the input order. -/
theorem C4_output_order_preserved (env : MainEnv)
    (outputPath workDir session : String) (w h : ℕ) (segs : List Segment)
    (hload : env.clipsLoad = .ok segs)
    (hexit : (mainRun env outputPath workDir session w h).exitCode = 0) :
    (mainRun env outputPath workDir session w h).concatEntries =
      (List.range segs.length).map (tempPath workDir session) ∧
    ∀ k (hk : k < segs.length), ∃ plan,
      process_segment (segs.get ⟨k, hk⟩) (env.segEnv k)
        (tempPath workDir session k) w h = .ok plan ∧
      plan.outputPath = tempPath workDir session k := by
  unfold mainRun at hexit ⊢
  rw [hload] at hexit ⊢
  rcases hemp : segs.isEmpty
  · simp only [hemp, Bool.false_eq_true, if_false] at hexit ⊢
    rcases hrun : runSegments env.segEnv workDir session w h segs 0 with e | tfs
    · simp only [hrun] at hexit
      simp at hexit
    · rcases hc : env.concatRun with e | u
      · simp only [hrun, hc] at hexit
        simp at hexit
      · simp only [hrun, hc] at hexit ⊢
        obtain ⟨htfs, hk⟩ := runSegments_ok_shape env.segEnv workDir session w h segs 0 tfs hrun
        refine ⟨?_, ?_⟩
        · simpa using htfs
        · intro k hkk
          simpa using hk k hkk
  · simp only [hemp, if_true] at hexit
    simp at hexit

theorem C4_output_order_preserved_witness :
    ({ clipsLoad := .ok [⟨some "a.mp4", some "a.mp3", [], none⟩,
                         ⟨some "b.mp4", some "b.mp3", [], none⟩],
       segEnv := fun _ => ⟨true, true, .ok 5, .ok ()⟩,
       concatRun := .ok () } : MainEnv).clipsLoad =
      .ok [⟨some "a.mp4", some "a.mp3", [], none⟩,
           ⟨some "b.mp4", some "b.mp3", [], none⟩] ∧
    (mainRun { clipsLoad := .ok [⟨some "a.mp4", some "a.mp3", [], none⟩,
                                 ⟨some "b.mp4", some "b.mp3", [], none⟩],
               segEnv := fun _ => ⟨true, true, .ok 5, .ok ()⟩,
               concatRun := .ok () } "final.mp4" "wd" "sid" 720 1280).exitCode = 0 ∧
    (mainRun { clipsLoad := .ok [⟨some "a.mp4", some "a.mp3", [], none⟩,
                                 ⟨some "b.mp4", some "b.mp3", [], none⟩],
               segEnv := fun _ => ⟨true, true, .ok 5, .ok ()⟩,
               concatRun := .ok () } "final.mp4" "wd" "sid" 720 1280).concatEntries =
      (List.range 2).map (tempPath "wd" "sid") :=
  ⟨rfl, rfl, (C4_output_order_preserved
    { clipsLoad := .ok [⟨some "a.mp4", some "a.mp3", [], none⟩,
                        ⟨some "b.mp4", some "b.mp3", [], none⟩],
      segEnv := fun _ => ⟨true, true, .ok 5, .ok ()⟩, concatRun := .ok () }
    "final.mp4" "wd" "sid" 720 1280
    [⟨some "a.mp4", some "a.mp3", [], none⟩, ⟨some "b.mp4", some "b.mp3", [], none⟩]
    rfl rfl).1⟩

/-! ## Claim C8: user-visible success and failure behaviour -/

/-- C8: every run either succeeds with exit status 0, printing exactly the
final output path on the success channel and no failure report, or fails
with exit status 1, printing nothing on the success channel and a
human-readable cause on the error channel. -/
theorem C8_exit_and_output_channels (env : MainEnv)
    (outputPath workDir session : String) (w h : ℕ) :
    ((mainRun env outputPath workDir session w h).exitCode = 0 ∨
      (mainRun env outputPath workDir session w h).exitCode = 1) ∧
    ((mainRun env outputPath workDir session w h).exitCode = 0 →
      (mainRun env outputPath workDir session w h).stdoutLines = [outputPath] ∧
      (mainRun env outputPath workDir session w h).stderrLines = []) ∧
    ((mainRun env outputPath workDir session w h).exitCode ≠ 0 →
      (mainRun env outputPath workDir session w h).stdoutLines = [] ∧
      (mainRun env outputPath workDir session w h).stderrLines ≠ []) := by
  unfold mainRun
  rcases hload : env.clipsLoad with e | segs
  · simp
  · rcases hemp : segs.isEmpty
    · simp only [hemp, Bool.false_eq_true, if_false]
      rcases hrun : runSegments env.segEnv workDir session w h segs 0 with e | tfs
      · simp [hrun]
      · rcases hc : env.concatRun with e | u <;> simp [hrun, hc]
    · simp [hemp]

theorem C8_exit_and_output_channels_witness :
    (mainRun { clipsLoad := .error "bad json", segEnv := fun _ => ⟨true, true, .ok 5, .ok ()⟩,
               concatRun := .ok () } "final.mp4" "wd" "sid" 720 1280).exitCode ≠ 0 ∧
    (mainRun { clipsLoad := .error "bad json", segEnv := fun _ => ⟨true, true, .ok 5, .ok ()⟩,
               concatRun := .ok () } "final.mp4" "wd" "sid" 720 1280).stdoutLines = [] ∧
    (mainRun { clipsLoad := .error "bad json", segEnv := fun _ => ⟨true, true, .ok 5, .ok ()⟩,
               concatRun := .ok () } "final.mp4" "wd" "sid" 720 1280).stderrLines ≠ [] :=
  ⟨by decide, (C8_exit_and_output_channels
    { clipsLoad := .error "bad json", segEnv := fun _ => ⟨true, true, .ok 5, .ok ()⟩,
      concatRun := .ok () } "final.mp4" "wd" "sid" 720 1280).2.2 (by decide)⟩

example :
    parseAligned
      [('[', 0, 1/10), ('s', 1/10, 2/10), ('i', 2/10, 3/10), ('g', 3/10, 4/10),
       ('h', 4/10, 5/10), (']', 5/10, 55/100), (' ', 55/100, 6/10),
       ('g', 6/10, 7/10), ('o', 7/10, 8/10), (' ', 8/10, 9/10),
       ('n', 9/10, 1), ('o', 1, 11/10), ('w', 11/10, 13/10)] =
      [⟨"go".toList, 6/10, 8/10⟩, ⟨"now".toList, 9/10, 13/10⟩] := by
  simp [parseAligned, parseFinish, pstep, pinit, flushWord, displayWord, stripDashDash, pyStrip, pyIsSpace]
  norm_num


/-! ## Claims C7 and C9: the even-distribution fallback -/

/-- C9: a segment whose cleaned text contains no words (empty,
whitespace-only, or entirely inside directive brackets) produces no
fallback cues and no subtitle operations: the guarded branch never reaches
the per-word duration division. -/
theorem C9_empty_text_no_cues (text : List Char) (d : ℚ)
    (h : cleanWords text = []) :
    fallbackCues text d = [] ∧ subtitleOps text none d = [] := by
  constructor
  · unfold fallbackCues
    simp [h]
  · unfold subtitleOps
    split
    · rfl
    · simp [fallbackCues, h]

theorem C9_empty_text_no_cues_witness :
    cleanWords "[sigh]".toList = [] ∧ fallbackCues "[sigh]".toList 5 = [] :=
  ⟨by decide, (C9_empty_text_no_cues "[sigh]".toList 5 (by decide)).1⟩

/-- C7: with no alignment data, the fallback produces one cue per cleaned
word, in order; word `k` of `n` is shown on the window
`[k*(d/n), (k+1)*(d/n)]` of the audio duration `d`, except that the final
word's end is forced to `d` exactly. -/
theorem C7_fallback_windows (text : List Char) (d : ℚ) (k : ℕ)
    (hk : k < (cleanWords text).length) :
    (fallbackCues text d).length = (cleanWords text).length ∧
    ∃ hk2 : k < (fallbackCues text d).length,
      ((fallbackCues text d).get ⟨k, hk2⟩).text = (cleanWords text).get ⟨k, hk⟩ ∧
      ((fallbackCues text d).get ⟨k, hk2⟩).start =
        (k : ℚ) * (d / ((cleanWords text).length : ℚ)) ∧
      ((fallbackCues text d).get ⟨k, hk2⟩).stop =
        (if k = (cleanWords text).length - 1 then d
         else ((k : ℚ) + 1) * (d / ((cleanWords text).length : ℚ))) := by
  have hne : ¬ cleanWords text = [] := by
    intro h0
    rw [h0] at hk
    exact absurd hk (by simp)
  have hfc : fallbackCues text d = (cleanWords text).mapIdx (fun i w =>
      { text := w, start := (i : ℚ) * (d / ((cleanWords text).length : ℚ)),
        stop := if i = (cleanWords text).length - 1 then d
                else ((i : ℚ) + 1) * (d / ((cleanWords text).length : ℚ)) }) := by
    unfold fallbackCues
    simp [hne]
  have hlen : (fallbackCues text d).length = (cleanWords text).length := by
    rw [hfc]
    exact List.length_mapIdx
  refine ⟨hlen, ?_⟩
  have hk2 : k < (fallbackCues text d).length := by
    rw [hlen]
    exact hk
  refine ⟨hk2, ?_⟩
  have hget : (fallbackCues text d).get ⟨k, hk2⟩ =
      { text := (cleanWords text).get ⟨k, hk⟩,
        start := (k : ℚ) * (d / ((cleanWords text).length : ℚ)),
        stop := if k = (cleanWords text).length - 1 then d
                else ((k : ℚ) + 1) * (d / ((cleanWords text).length : ℚ)) } := by
    rw [List.get_of_eq hfc ⟨k, hk2⟩]
    exact List.get_mapIdx _ _ k hk
  rw [hget]
  exact ⟨rfl, rfl, rfl⟩

theorem C7_fallback_windows_witness :
    2 < (cleanWords "a b c".toList).length ∧
    ((fallbackCues "a b c".toList 6).length = (cleanWords "a b c".toList).length ∧
    ∃ hk2 : 2 < (fallbackCues "a b c".toList 6).length,
      ((fallbackCues "a b c".toList 6).get ⟨2, hk2⟩).text =
        (cleanWords "a b c".toList).get ⟨2, by decide⟩ ∧
      ((fallbackCues "a b c".toList 6).get ⟨2, hk2⟩).start =
        (2 : ℚ) * (6 / ((cleanWords "a b c".toList).length : ℚ)) ∧
      ((fallbackCues "a b c".toList 6).get ⟨2, hk2⟩).stop =
        (if 2 = (cleanWords "a b c".toList).length - 1 then (6 : ℚ)
         else ((2 : ℚ) + 1) * (6 / ((cleanWords "a b c".toList).length : ℚ)))) :=
  ⟨by decide, C7_fallback_windows "a b c".toList 6 2 (by decide)⟩

/-! ## Bracket suppression and provenance in the reconstruction loop -/

/-- All emitted word text of a parse, concatenated in order. -/
def joinedTexts (ws : List WordSpan) : List Char :=
  (ws.map WordSpan.text).flatten

/-- The characters the reconstruction loop can ever append to a word:
scan with the bracket flag, dropping the two bracket characters and every
character read while the flag is set. -/
def visibleChars : Bool → List Char → List Char
  | _, [] => []
  | b, c :: cs =>
    if c == '[' then visibleChars true cs
    else if c == ']' then visibleChars false cs
    else if b then visibleChars true cs
    else c :: visibleChars false cs

/-- The text already committed plus the word still being accumulated. -/
def pendingJoined (st : PState) : List Char :=
  joinedTexts st.out ++ st.currentWord

theorem stripDashDash_sublist (l : List Char) :
    List.Sublist (stripDashDash l) l := by
  induction l using stripDashDash.induct with
  | case1 cs ih =>
    rw [show stripDashDash ('-' :: '-' :: cs) = stripDashDash cs from rfl]
    exact (ih.cons _).cons _
  | case2 c cs h ih =>
    rw [stripDashDash.eq_2 c cs h]
    exact ih.cons₂ _
  | case3 => simp [stripDashDash]

theorem displayWord_sublist (w : List Char) :
    List.Sublist (displayWord w) w :=
  (List.filter_sublist _).trans (stripDashDash_sublist w)

theorem joinedTexts_append (a b : List WordSpan) :
    joinedTexts (a ++ b) = joinedTexts a ++ joinedTexts b := by
  simp [joinedTexts]

/-- Flushing commits at most the display text of the pending word. -/
theorem joinedTexts_flush (st : PState) :
    List.Sublist (joinedTexts (flushWord st)) (pendingJoined st) := by
  unfold flushWord pendingJoined
  split
  · rw [joinedTexts_append]
    have : joinedTexts [(⟨displayWord st.currentWord, st.wordStart, st.wordStop⟩ : WordSpan)] =
        displayWord st.currentWord := by simp [joinedTexts]
    rw [this]
    exact (displayWord_sublist st.currentWord).append_left _
  · exact List.sublist_append_left _ _

/-- Each loop step can only move visible characters into the pending text:
after processing the whole list, the committed-plus-pending text is a
sublist of what was there before plus the visible characters of the list. -/
theorem pendingJoined_foldl (l : List (Char × ℚ × ℚ)) :
    ∀ st : PState,
      List.Sublist (pendingJoined (l.foldl pstep st))
        (pendingJoined st ++ visibleChars st.inBracket (l.map (·.1))) := by
  induction l with
  | nil =>
    intro st
    simp [visibleChars]
  | cons t l ih =>
    intro st
    rw [List.foldl_cons, List.map_cons]
    by_cases h1 : t.1 = '['
    · have hp : pstep st t = { st with inBracket := true } := by
        simp [pstep, h1]
      have hv : visibleChars st.inBracket (t.1 :: l.map (·.1)) =
          visibleChars true (l.map (·.1)) := by
        simp [visibleChars, h1]
      rw [hp, hv]
      exact ih { st with inBracket := true }
    · by_cases h2 : t.1 = ']'
      · have hp : pstep st t = { st with inBracket := false } := by
          simp [pstep, h1, h2]
        have hv : visibleChars st.inBracket (t.1 :: l.map (·.1)) =
            visibleChars false (l.map (·.1)) := by
          simp [visibleChars, h1, h2]
        rw [hp, hv]
        exact ih { st with inBracket := false }
      · by_cases h3 : st.inBracket
        · have hp : pstep st t = st := by
            simp [pstep, h1, h2, h3]
          have hv : visibleChars st.inBracket (t.1 :: l.map (·.1)) =
              visibleChars st.inBracket (l.map (·.1)) := by
            rw [h3]
            simp [visibleChars, h1, h2]
          rw [hp, hv]
          exact ih st
        · have hb : st.inBracket = false := by
            simpa using h3
          by_cases h4 : t.1 = ' '
          · have hv : visibleChars st.inBracket (t.1 :: l.map (·.1)) =
                ' ' :: visibleChars false (l.map (·.1)) := by
              rw [hb]
              simp [visibleChars, h1, h2, h4]
            rw [hv]
            by_cases h5 : st.currentWord = []
            · have hp : pstep st t = st := by
                simp [pstep, h1, h2, hb, h4, h5]
              rw [hp]
              refine (ih st).trans ?_
              rw [hb]
              exact (List.Sublist.refl _).append (List.sublist_cons_self ' ' _)
            · have hp : pstep st t =
                  { inBracket := st.inBracket, currentWord := [], wordStart := -1,
                    wordStop := -1, out := flushWord st } := by
                simp [pstep, h1, h2, hb, h4, h5]
              rw [hp]
              refine (ih _).trans ?_
              have hpj : pendingJoined
                  { inBracket := st.inBracket, currentWord := [], wordStart := -1,
                    wordStop := -1, out := flushWord st } = joinedTexts (flushWord st) := by
                simp [pendingJoined]
              rw [hpj, hb]
              exact (joinedTexts_flush st).append (List.sublist_cons_self ' ' _)
          · have hp : pstep st t =
                { st with
                  wordStart := if st.wordStart = -1 then t.2.1 else st.wordStart,
                  wordStop := t.2.2,
                  currentWord := st.currentWord ++ [t.1] } := by
              simp [pstep, h1, h2, hb, h4]
            have hv : visibleChars st.inBracket (t.1 :: l.map (·.1)) =
                t.1 :: visibleChars false (l.map (·.1)) := by
              rw [hb]
              simp [visibleChars, h1, h2]
            rw [hp, hv]
            refine (ih _).trans ?_
            have hpj : pendingJoined
                { st with
                  wordStart := if st.wordStart = -1 then t.2.1 else st.wordStart,
                  wordStop := t.2.2,
                  currentWord := st.currentWord ++ [t.1] } = pendingJoined st ++ [t.1] := by
              simp [pendingJoined]
            rw [hpj, hb, List.append_assoc, List.singleton_append]

/-- The parse output's concatenated text only contains visible characters,
in order: everything between brackets, and the brackets themselves, are
gone. -/
theorem joinedTexts_parseAligned_sublist (l : List (Char × ℚ × ℚ)) :
    List.Sublist (joinedTexts (parseAligned l))
      (visibleChars false (l.map (·.1))) := by
  have h := pendingJoined_foldl l pinit
  have hpj : pendingJoined pinit ++ visibleChars pinit.inBracket (l.map (·.1)) =
      visibleChars false (l.map (·.1)) := by
    simp [pendingJoined, joinedTexts, pinit]
  rw [hpj] at h
  unfold parseAligned parseFinish
  split
  · exact (joinedTexts_flush _).trans h
  · refine List.Sublist.trans ?_ h
    unfold pendingJoined
    exact List.sublist_append_left _ _

/-- Neither bracket character survives the visibility scan. -/
theorem visibleChars_no_brackets (l : List Char) :
    ∀ b : Bool, '[' ∉ visibleChars b l ∧ ']' ∉ visibleChars b l := by
  induction l with
  | nil => intro b; simp [visibleChars]
  | cons c cs ih =>
    intro b
    by_cases h1 : c = '['
    · simpa [visibleChars, h1] using ih true
    · by_cases h2 : c = ']'
      · simpa [visibleChars, h1, h2] using ih false
      · cases b
        · constructor
          · simp only [visibleChars, h1, h2]
            simp only [beq_iff_eq, if_neg h1, if_neg h2, Bool.false_eq_true, if_false]
            intro hmem
            rcases List.mem_cons.mp hmem with h | h
            · exact h1 h.symm
            · exact (ih false).1 h
          · simp only [visibleChars, h1, h2]
            simp only [beq_iff_eq, if_neg h1, if_neg h2, Bool.false_eq_true, if_false]
            intro hmem
            rcases List.mem_cons.mp hmem with h | h
            · exact h2 h.symm
            · exact (ih false).2 h
        · simpa [visibleChars, h1, h2] using ih true

/-- An emitted word's provenance: an ordered, in-order selection of input
triples whose characters are exactly the accumulated word (the display text
is that word with hyphens removed), whose first triple provides the word's
start time and whose last triple provides its end time. -/
def WordChain (l : List (Char × ℚ × ℚ)) (w : WordSpan) : Prop :=
  ∃ (first : Char × ℚ × ℚ) (rest : List (Char × ℚ × ℚ)) (last : Char × ℚ × ℚ),
    List.Sublist (first :: rest) l ∧
    w.text = displayWord ((first :: rest).map (·.1)) ∧
    w.start = first.2.1 ∧
    (first :: rest).getLast? = some last ∧
    w.stop = last.2.2

/-- The loop invariant for provenance: every emitted word has a chain in
the processed input, the `-1` sentinels are exactly the empty-word state,
and a non-empty pending word has a chain giving its characters and its
pending start/end times. -/
def ChainInv (l : List (Char × ℚ × ℚ)) (st : PState) : Prop :=
  (∀ w ∈ st.out, WordChain l w) ∧
  (st.currentWord = [] → st.wordStart = -1 ∧ st.wordStop = -1) ∧
  (st.currentWord ≠ [] →
    ∃ (first : Char × ℚ × ℚ) (rest : List (Char × ℚ × ℚ)) (last : Char × ℚ × ℚ),
      List.Sublist (first :: rest) l ∧
      st.currentWord = (first :: rest).map (·.1) ∧
      st.wordStart = first.2.1 ∧
      (first :: rest).getLast? = some last ∧
      st.wordStop = last.2.2)

theorem wordChain_mono {l l2 : List (Char × ℚ × ℚ)} {w : WordSpan}
    (hl : List.Sublist l l2) (h : WordChain l w) : WordChain l2 w := by
  obtain ⟨f, r, la, hs, ht, h1, h2, h3⟩ := h
  exact ⟨f, r, la, hs.trans hl, ht, h1, h2, h3⟩

theorem chainInv_mono {l l2 : List (Char × ℚ × ℚ)} {st : PState}
    (hl : List.Sublist l l2) (h : ChainInv l st) : ChainInv l2 st := by
  obtain ⟨ho, he, hc⟩ := h
  refine ⟨fun w hw => wordChain_mono hl (ho w hw), he, ?_⟩
  intro hne
  obtain ⟨f, r, la, hs, ht, h1, h2, h3⟩ := hc hne
  exact ⟨f, r, la, hs.trans hl, ht, h1, h2, h3⟩

/-- A flush turns the pending word's chain into an emitted word's chain. -/
theorem chainInv_flush {l : List (Char × ℚ × ℚ)} {st : PState}
    (h : ChainInv l st) : ∀ w ∈ flushWord st, WordChain l w := by
  intro w hw
  unfold flushWord at hw
  split at hw
  · rcases List.mem_append.mp hw with hmem | hmem
    · exact h.1 w hmem
    · have hne : st.currentWord ≠ [] := by
        intro h0
        simp [displayWord, h0, stripDashDash, pyStrip] at *
      obtain ⟨f, r, la, hs, ht, h1, h2, h3⟩ := h.2.2 hne
      simp at hmem
      subst hmem
      exact ⟨f, r, la, hs, by rw [ht], h1, h2, h3⟩
  · exact h.1 w hw

/-- One loop step preserves the provenance invariant, extending the
processed input by the consumed triple.  The hypothesis that no processed
start time is the sentinel `-1` keeps the code's "unset" test faithful. -/
theorem chainInv_step {B : List (Char × ℚ × ℚ)} {st : PState}
    (t : Char × ℚ × ℚ) (hN : ∀ u ∈ B, u.2.1 ≠ -1)
    (h : ChainInv B st) : ChainInv (B ++ [t]) (pstep st t) := by
  have hmono : List.Sublist B (B ++ [t]) := List.sublist_append_left _ _
  by_cases h1 : t.1 = '['
  · have hp : pstep st t = { st with inBracket := true } := by simp [pstep, h1]
    rw [hp]
    exact chainInv_mono hmono h
  · by_cases h2 : t.1 = ']'
    · have hp : pstep st t = { st with inBracket := false } := by simp [pstep, h1, h2]
      rw [hp]
      exact chainInv_mono hmono h
    · by_cases h3 : st.inBracket
      · have hp : pstep st t = st := by simp [pstep, h1, h2, h3]
        rw [hp]
        exact chainInv_mono hmono h
      · have hb : st.inBracket = false := by simpa using h3
        by_cases h4 : t.1 = ' '
        · by_cases h5 : st.currentWord = []
          · have hp : pstep st t = st := by simp [pstep, h1, h2, hb, h4, h5]
            rw [hp]
            exact chainInv_mono hmono h
          · have hp : pstep st t =
                { inBracket := st.inBracket, currentWord := [], wordStart := -1,
                  wordStop := -1, out := flushWord st } := by
              simp [pstep, h1, h2, hb, h4, h5]
            rw [hp]
            refine ⟨?_, ?_, ?_⟩
            · intro w hw
              exact wordChain_mono hmono (chainInv_flush h w hw)
            · intro _
              exact ⟨rfl, rfl⟩
            · intro hne
              simp at hne
        · have hp : pstep st t =
              { st with
                wordStart := if st.wordStart = -1 then t.2.1 else st.wordStart,
                wordStop := t.2.2,
                currentWord := st.currentWord ++ [t.1] } := by
            simp [pstep, h1, h2, hb, h4]
          rw [hp]
          refine ⟨?_, ?_, ?_⟩
          · intro w hw
            exact wordChain_mono hmono (h.1 w hw)
          · intro h0
            simp at h0
          · intro _
            by_cases h5 : st.currentWord = []
            · have hse := (h.2.1 h5).1
              refine ⟨t, [], t, ?_, ?_, ?_, ?_, ?_⟩
              · exact List.sublist_append_right _ _
              · simp [h5]
              · simp [hse]
              · rfl
              · rfl
            · obtain ⟨f, r, la, hs, ht, hws, hlast, hwe⟩ := h.2.2 h5
              have hfs : f.2.1 ≠ -1 := by
                apply hN
                exact hs.subset (List.mem_cons_self _ _)
              refine ⟨f, r ++ [t], t, ?_, ?_, ?_, ?_, ?_⟩
              · rw [show f :: (r ++ [t]) = (f :: r) ++ [t] from rfl]
                exact hs.append (List.Sublist.refl [t])
              · rw [show f :: (r ++ [t]) = (f :: r) ++ [t] from rfl]
                simp only [List.map_append, ← ht]
                rfl
              · rw [hws, if_neg hfs]
              · rw [show f :: (r ++ [t]) = (f :: r) ++ [t] from rfl]
                exact List.getLast?_concat _
              · rfl

/-- Provenance holds after folding any input suffix. -/
theorem chainInv_foldl :
    ∀ (l B : List (Char × ℚ × ℚ)) (st : PState),
      (∀ u ∈ B ++ l, u.2.1 ≠ -1) → ChainInv B st →
      ChainInv (B ++ l) (l.foldl pstep st) := by
  intro l
  induction l with
  | nil =>
    intro B st hN h
    simpa using h
  | cons t l ih =>
    intro B st hN h
    rw [List.foldl_cons]
    have h2 : ChainInv (B ++ [t]) (pstep st t) := by
      apply chainInv_step t _ h
      intro u hu
      exact hN u (List.mem_append.mpr (Or.inl hu))
    have h3 := ih (B ++ [t]) (pstep st t) (by simpa using hN) h2
    simpa using h3

/-- Every word the reconstruction emits takes its start time from its first
accumulated character and its end time from its last accumulated character,
and its display text is exactly those characters with hyphens removed
(provided no real start time collides with the `-1` sentinel). -/
theorem parseAligned_wordChain (l : List (Char × ℚ × ℚ))
    (hN : ∀ u ∈ l, u.2.1 ≠ -1) :
    ∀ w ∈ parseAligned l, WordChain l w := by
  have hInv : ChainInv l (l.foldl pstep pinit) := by
    have h0 : ChainInv [] pinit := by
      refine ⟨by simp [pinit], fun _ => ⟨rfl, rfl⟩, fun hne => absurd rfl hne⟩
    simpa using chainInv_foldl l [] pinit (by simpa using hN) h0
  intro w hw
  unfold parseAligned parseFinish at hw
  split at hw
  · exact chainInv_flush hInv w hw
  · exact hInv.1 w hw

/-! ## Claim C6: the alignment example and its generalisation -/

/-- C6: on alignment data spelling "[sigh] go now" with "go" spanning
0.6-0.8s and "now" spanning 0.9-1.3s, the reconstruction yields exactly
[{"go",0.6,0.8}, {"now",0.9,1.3}]; in general every emitted word takes its
start time from its first accumulated character and its end time from its
last one, and neither the bracket characters nor any character read while
the bracket flag is set ever appears in an emitted word's text (the
emitted text embeds, in order, into the bracket-free visible characters). -/
theorem C6_alignment_word_spans :
    parseAlignment
      { characters := "[sigh] go now".toList,
        startTimes := [0, 1/10, 2/10, 3/10, 4/10, 5/10, 55/100, 6/10, 7/10,
                       85/100, 9/10, 1, 11/10],
        endTimes := [1/10, 2/10, 3/10, 4/10, 5/10, 55/100, 6/10, 7/10, 8/10,
                     9/10, 1, 11/10, 13/10] } =
      [⟨"go".toList, 6/10, 8/10⟩, ⟨"now".toList, 9/10, 13/10⟩] ∧
    (∀ l : List (Char × ℚ × ℚ), (∀ u ∈ l, u.2.1 ≠ -1) →
      ∀ w ∈ parseAligned l, WordChain l w) ∧
    (∀ l : List (Char × ℚ × ℚ),
      List.Sublist (joinedTexts (parseAligned l)) (visibleChars false (l.map (·.1)))) ∧
    (∀ l : List (Char × ℚ × ℚ), ∀ w ∈ parseAligned l,
      '[' ∉ w.text ∧ ']' ∉ w.text) := by
  refine ⟨?_, parseAligned_wordChain, joinedTexts_parseAligned_sublist, ?_⟩
  · simp [parseAlignment, alignTriples, parseAligned, parseFinish, pstep, pinit,
      flushWord, displayWord, stripDashDash, pyStrip, pyIsSpace]
    norm_num
  · intro l w hw
    have hsubset := (joinedTexts_parseAligned_sublist l).subset
    have hmem : ∀ c ∈ w.text, c ∈ joinedTexts (parseAligned l) := by
      intro c hc
      unfold joinedTexts
      exact List.mem_flatten.mpr ⟨w.text, List.mem_map.mpr ⟨w, hw, rfl⟩, hc⟩
    constructor
    · intro hcontra
      exact (visibleChars_no_brackets (l.map (·.1)) false).1 (hsubset (hmem _ hcontra))
    · intro hcontra
      exact (visibleChars_no_brackets (l.map (·.1)) false).2 (hsubset (hmem _ hcontra))

theorem C6_alignment_word_spans_witness :
    (∀ u ∈ [('h', (0:ℚ), (1:ℚ)), ('i', (1:ℚ), (2:ℚ))], u.2.1 ≠ -1) ∧
    WordChain [('h', (0:ℚ), (1:ℚ)), ('i', (1:ℚ), (2:ℚ))] ⟨"hi".toList, 0, 2⟩ :=
  ⟨by decide, C6_alignment_word_spans.2.1 [('h', 0, 1), ('i', 1, 2)] (by decide)
    ⟨"hi".toList, 0, 2⟩ (by decide)⟩

/-! ## Claim C10: the bracket state machine -/

/-- The bracket flag, evolved over bare characters: `[` sets it, `]`
clears it, everything else leaves it. -/
def bracketFoldChars (b : Bool) (cs : List Char) : Bool :=
  cs.foldl (fun x c => if c == '[' then true else if c == ']' then false else x) b

theorem pstep_inBracket (st : PState) (t : Char × ℚ × ℚ) :
    (pstep st t).inBracket =
      (if t.1 == '[' then true else if t.1 == ']' then false else st.inBracket) := by
  by_cases h1 : t.1 = '['
  · simp [pstep, h1]
  · by_cases h2 : t.1 = ']'
    · simp [pstep, h1, h2]
    · by_cases h3 : st.inBracket
      · simp [pstep, h1, h2, h3]
      · have hb : st.inBracket = false := by simpa using h3
        by_cases h4 : t.1 = ' '
        · by_cases h5 : st.currentWord = [] <;> simp [pstep, h1, h2, hb, h4, h5]
        · simp [pstep, h1, h2, hb, h4]

theorem foldl_inBracket (l : List (Char × ℚ × ℚ)) :
    ∀ st : PState, (l.foldl pstep st).inBracket =
      bracketFoldChars st.inBracket (l.map (·.1)) := by
  induction l with
  | nil => intro st; rfl
  | cons t l ih =>
    intro st
    rw [List.foldl_cons, List.map_cons, ih]
    unfold bracketFoldChars
    rw [List.foldl_cons]
    congr 1
    exact pstep_inBracket st t

theorem bracketFoldChars_no_open : ∀ cs : List Char, '[' ∉ cs →
    bracketFoldChars false cs = false := by
  intro cs
  induction cs with
  | nil => intro _; rfl
  | cons c cs ih =>
    intro hno
    have hc : c ≠ '[' := fun h => hno (h ▸ List.mem_cons_self _ _)
    unfold bracketFoldChars
    rw [List.foldl_cons]
    have hstep : (if c == '[' then true else if c == ']' then false else false) = false := by
      simp [hc]
    rw [hstep]
    exact ih (fun h => hno (List.mem_cons_of_mem _ h))

/-- A `]` read while outside brackets leaves the whole state unchanged. -/
theorem close_noop (st : PState) (hb : st.inBracket = false) (s e : ℚ) :
    pstep st (']', s, e) = st := by
  cases st
  simp_all [pstep]

/-- Once the flag is set and no `]` follows, every step is a no-op. -/
theorem skip_to_end (l : List (Char × ℚ × ℚ)) :
    ∀ st : PState, st.inBracket = true → (∀ u ∈ l, u.1 ≠ ']') →
      l.foldl pstep st = st := by
  induction l with
  | nil => intro st _ _; rfl
  | cons t l ih =>
    intro st hb hc
    rw [List.foldl_cons]
    have hp : pstep st t = st := by
      by_cases h1 : t.1 = '['
      · cases st
        simp_all [pstep]
      · have h2 : t.1 ≠ ']' := hc t (List.mem_cons_self _ _)
        simp [pstep, h1, h2, hb]
    rw [hp]
    exact ih st hb (fun u hu => hc u (List.mem_cons_of_mem _ hu))

/-- C10: the bracket state starts as "outside"; a `]` with no preceding
`[` is discarded with no other effect; an unmatched `[` suppresses every
later character through end of input, so the parse equals the parse of the
input up to the `[` alone; and the flag's evolution depends only on the
bare character sequence, never on word boundaries. -/
theorem C10_bracket_state_machine :
    pinit.inBracket = false ∧
    (∀ (l1 l2 : List (Char × ℚ × ℚ)) (s e : ℚ), '[' ∉ l1.map (·.1) →
      parseAligned (l1 ++ (']', s, e) :: l2) = parseAligned (l1 ++ l2)) ∧
    (∀ (l1 l2 : List (Char × ℚ × ℚ)) (s e : ℚ), (∀ u ∈ l2, u.1 ≠ ']') →
      parseAligned (l1 ++ ('[', s, e) :: l2) = parseAligned l1) ∧
    (∀ (l : List (Char × ℚ × ℚ)) (st : PState),
      (l.foldl pstep st).inBracket = bracketFoldChars st.inBracket (l.map (·.1))) := by
  refine ⟨rfl, ?_, ?_, fun l st => foldl_inBracket l st⟩
  · intro l1 l2 s e hno
    have hb : (l1.foldl pstep pinit).inBracket = false := by
      rw [foldl_inBracket]
      exact bracketFoldChars_no_open _ hno
    unfold parseAligned
    rw [List.foldl_append, List.foldl_cons, close_noop _ hb s e, List.foldl_append]
  · intro l1 l2 s e hc
    have hopen : pstep (l1.foldl pstep pinit) ('[', s, e) =
        { l1.foldl pstep pinit with inBracket := true } := by
      simp [pstep]
    unfold parseAligned
    rw [List.foldl_append, List.foldl_cons, hopen,
      skip_to_end l2 { l1.foldl pstep pinit with inBracket := true } rfl hc]
    rfl

theorem C10_bracket_state_machine_witness :
    ('[' ∉ (([] : List (Char × ℚ × ℚ)).map (·.1))) ∧
    parseAligned ([] ++ ((']', (0:ℚ), (0:ℚ)) :: [('a', (1:ℚ), (2:ℚ))])) =
      parseAligned ([] ++ [('a', (1:ℚ), (2:ℚ))]) :=
  ⟨by decide, C10_bracket_state_machine.2.1 [] [('a', 1, 2)] 0 0 (by decide)⟩

end Stitch
